import Mathlib

/-!
# A verification development for the 5x5 two-phase number-placement game

Shallow embedding of the game engine in `logic.py` (class `Logic`):
the 5x5 Level-1 board, the 7x7 Level-2 ring, the undo history of full-state
snapshots, the Level-2 eligibility map, time scoring and personal bests.

Python's mutable `self` is modelled by explicit state passing: each method
becomes a function `GameState → args → GameState` (paired with a `Bool`
when the method returns one).  Boards and rings are total functions
`ℤ → ℤ → ℤ` (the code only ever indexes them inside `[0,5)²` resp. `[0,7)²`,
after explicit bounds checks, so the values outside those squares are never
observed).  Python dicts keyed by ints become association lists; a Python
float (`elapsed_seconds`, completion times) becomes `ℚ`; `copy.deepcopy`
is the identity on immutable Lean values.  `random.randint(0, 4)` draws are
passed in as explicit arguments.
-/

set_option maxRecDepth 4000
set_option maxHeartbeats 1000000

namespace Game

/-- The eligibility map `level2_available_positions`: a Python dict from a
ring number (int key) to a list of `(row, col)` int pairs, modelled as an
association list in insertion order. -/
abbrev EligMap := List (ℤ × List (ℤ × ℤ))

/-- The per-level time limits `time_limits`: a Python dict from a level
(int key) to `int | None`. -/
abbrev TimeLimits := List (ℤ × Option ℤ)

/-- The dict `level1_snapshot` built by `start_level2`:
`{"board": …, "score": …, "level": 1, "ring": …}`. -/
structure Level1Snap where
  board : ℤ → ℤ → ℤ
  score : ℤ
  level : ℤ
  ring : ℤ → ℤ → ℤ

/-- The full-state snapshot dict built by `Logic._snapshot_state` (also the
shape exchanged by `get_state` / `set_state`). -/
structure Snapshot where
  board : ℤ → ℤ → ℤ
  score : ℤ
  level : ℤ
  ring : ℤ → ℤ → ℤ
  level1_completed : Bool
  level1_snapshot : Option Level1Snap
  level2_completed : Bool
  level2_available_positions : EligMap
  current_outer_number : ℤ
  correct_moves : ℤ
  invalid_moves : ℤ
  player_name : Option String
  time_limits : TimeLimits
  time_bonus_last : ℤ

/-- The mutable attributes of a `Logic` instance (`Logic.__init__`). -/
structure GameState where
  board : ℤ → ℤ → ℤ
  ring : ℤ → ℤ → ℤ
  score : ℤ
  level : ℤ
  player_name : Option String
  correct_moves : ℤ
  invalid_moves : ℤ
  move_history : List (String × Snapshot)
  level1_completed : Bool
  level1_snapshot : Option Level1Snap
  level2_completed : Bool
  level2_available_positions : EligMap
  current_outer_number : ℤ
  time_limits : TimeLimits
  time_bonus_last : ℤ

/-- The fresh `Logic()` instance of `Logic.__init__`: empty board and ring,
level 1, score 0, empty history, `time_limits = {1: 60, 2: 60, 3: 60}`. -/
def initState : GameState where
  board := fun _ _ => 0
  ring := fun _ _ => 0
  score := 0
  level := 1
  player_name := none
  correct_moves := 0
  invalid_moves := 0
  move_history := []
  level1_completed := false
  level1_snapshot := none
  level2_completed := false
  level2_available_positions := []
  current_outer_number := 2
  time_limits := [(1, some 60), (2, some 60), (3, some 60)]
  time_bonus_last := 0

/-! ## Board coordinates -/

/-- The 25 board coordinates `(r, c)` with `r, c ∈ [0, 4]`, as a `Finset`
(used to state counting facts about the 5x5 board). -/
def dom5 : Finset (ℤ × ℤ) := Finset.Icc 0 4 ×ˢ Finset.Icc 0 4

/-- The 25 board coordinates in the row-major order of the nested
`for r in range(5): for c in range(5)` loops. -/
def coords5 : List (ℤ × ℤ) :=
  (Int.range 0 5).flatMap fun r => (Int.range 0 5).map fun c => (r, c)

/-- The 49 coordinates of the 7x7 ring grid in the row-major order of the
nested `for r in range(7): for c in range(7)` loops. -/
def coords7 : List (ℤ × ℤ) :=
  (Int.range 0 7).flatMap fun r => (Int.range 0 7).map fun c => (r, c)

lemma mem_coords5 {p : ℤ × ℤ} : p ∈ coords5 ↔ 0 ≤ p.1 ∧ p.1 ≤ 4 ∧ 0 ≤ p.2 ∧ p.2 ≤ 4 := by
  obtain ⟨a, b⟩ := p
  simp only [coords5, List.mem_flatMap, List.mem_map, Int.mem_range_iff, Prod.mk.injEq]
  constructor
  · rintro ⟨r, hr, c, hc, rfl, rfl⟩
    omega
  · rintro ⟨h0, h4, h0c, h4c⟩
    exact ⟨a, ⟨h0, by omega⟩, b, ⟨h0c, by omega⟩, rfl, rfl⟩

lemma mem_dom5 {p : ℤ × ℤ} : p ∈ dom5 ↔ 0 ≤ p.1 ∧ p.1 ≤ 4 ∧ 0 ≤ p.2 ∧ p.2 ≤ 4 := by
  simp [dom5, Finset.mem_product, Finset.mem_Icc, and_assoc]

lemma dom5_nonempty : dom5.Nonempty := ⟨(0, 0), by simp [mem_dom5]⟩

/-- `self.board[r][c] = v`: point update of a board/ring function. -/
def updateAt (b : ℤ → ℤ → ℤ) (r c v : ℤ) : ℤ → ℤ → ℤ :=
  fun x y => if x = r ∧ y = c then v else b x y

/-! ## Utility helpers of `Logic` -/

/-- `Logic.previous_input`: `max(max(row) for row in self.board)`. The
maximum of the five row maxima is the maximum over all 25 cells, stated here
as a `Finset.sup'` over the (nonempty) coordinate square. -/
def previous_input (s : GameState) : ℤ :=
  dom5.sup' dom5_nonempty fun p => s.board p.1 p.2

/-- `Logic.find_position`: first cell (row-major) holding `target`, else
`None`. -/
def find_position (s : GameState) (target : ℤ) : Option (ℤ × ℤ) :=
  coords5.find? fun p => s.board p.1 p.2 == target

/-- `Logic._find_position_inner`: textually the same loop as
`find_position`, searching the inner 5x5 board. -/
def find_position_inner (s : GameState) (number : ℤ) : Option (ℤ × ℤ) :=
  coords5.find? fun p => s.board p.1 p.2 == number

/-! ## Undo history -/

/-- Action tags pushed by the code (string literals in `logic.py`). -/
def tagInitial : String := "initial"

/-- Tag of a Level-1 move snapshot. -/
def tagMove : String := "move"

/-- Tag of the snapshot pushed by `start_level2`. -/
def tagLevel2Initial : String := "level2_initial"

/-- Tag of a Level-2 ring-move snapshot. -/
def tagRingMove : String := "ring_move"

/-- Tag of the snapshot pushed by `clear_ring`. -/
def tagClearRing : String := "clear_ring"

/-- Tag of the baseline snapshot pushed by `set_state` on empty history. -/
def tagLoadedInitial : String := "loaded_initial"

/-- `Logic._snapshot_state`: the complete snapshot dict (deep copies are the
identity here). -/
def snapshot_state (s : GameState) : Snapshot where
  board := s.board
  score := s.score
  level := s.level
  ring := s.ring
  level1_completed := s.level1_completed
  level1_snapshot := s.level1_snapshot
  level2_completed := s.level2_completed
  level2_available_positions := s.level2_available_positions
  current_outer_number := s.current_outer_number
  correct_moves := s.correct_moves
  invalid_moves := s.invalid_moves
  player_name := s.player_name
  time_limits := s.time_limits
  time_bonus_last := s.time_bonus_last

/-- `Logic._restore_snapshot`: write every snapshot field back into the live
state (the `snap.get(…, default)` defaults never fire because a `Snapshot`
always carries all fields, exactly like the dicts `_snapshot_state` builds). -/
def restore_snapshot (s : GameState) (snap : Snapshot) : GameState :=
  { s with
    board := snap.board
    score := snap.score
    level := snap.level
    ring := snap.ring
    level1_completed := snap.level1_completed
    level1_snapshot := snap.level1_snapshot
    level2_completed := snap.level2_completed
    level2_available_positions := snap.level2_available_positions
    current_outer_number := snap.current_outer_number
    correct_moves := snap.correct_moves
    invalid_moves := snap.invalid_moves
    player_name := snap.player_name
    time_limits := snap.time_limits
    time_bonus_last := snap.time_bonus_last }

/-- `Logic._save_to_history` with the default `state_snapshot=None`:
evict the oldest entry when at `MAX_UNDO_HISTORY = 50` capacity, then append
a snapshot of the current state. -/
def save_to_history (s : GameState) (action_type : String) : GameState :=
  let hist := if 50 ≤ s.move_history.length then s.move_history.tail else s.move_history
  { s with move_history := hist ++ [(action_type, snapshot_state s)] }

/-- `Logic.can_undo`: `len(self.move_history) > 1`. -/
def can_undo (s : GameState) : Bool :=
  decide (1 < s.move_history.length)

/-- `Logic.undo_last_move`: refuse at the Level-2 history floor when Level 1
is completed, refuse with fewer than two snapshots, otherwise pop the current
state and restore the new last snapshot.  (In the `none` branch of
`getLast?` — unreachable because the list has length ≥ 1 there — the code
is modelled as the refusing result.) -/
def undo_last_move (s : GameState) : Bool × GameState :=
  if s.level1_completed = true ∧ s.level = 2 ∧ s.move_history.length ≤ 1 then (false, s)
  else if s.move_history.length < 2 then (false, s)
  else
    let hist := s.move_history.dropLast
    match hist.getLast? with
    | none => (false, s)
    | some (_, prev_state) => (true, { restore_snapshot s prev_state with move_history := hist })

/-! ## Level transitions / resets -/

/-- `Logic.reset_new_game_level1`: clear everything and place `1` at the
randomly drawn cell `(r0, c0)` (the two `random.randint(0, 4)` draws are
passed in). -/
def reset_new_game_level1 (s : GameState) (r0 c0 : ℤ) : GameState :=
  let s1 := { s with
    board := updateAt (fun _ _ => 0) r0 c0 1
    ring := fun _ _ => 0
    score := 0
    level := 1
    correct_moves := 0
    invalid_moves := 0
    move_history := []
    level1_completed := false
    level1_snapshot := none
    level2_completed := false
    level2_available_positions := []
    current_outer_number := 2 }
  save_to_history s1 tagInitial

/-- `Logic.clear_level1_keep_one`: clear the Level-1 board but keep `1` in
its position; `(r0, c0)` is the random draw used only when no `1` is on the
board. -/
def clear_level1_keep_one (s : GameState) (r0 c0 : ℤ) : GameState :=
  let pos := find_position s 1
  let seed : ℤ × ℤ := match pos with
    | none => (r0, c0)
    | some p => p
  let s1 := { s with
    board := updateAt (fun _ _ => 0) seed.1 seed.2 1
    ring := fun _ _ => 0
    score := 0
    level := 1
    move_history := []
    level1_completed := false
    level1_snapshot := none
    level2_completed := false }
  save_to_history s1 tagInitial

/-- `Logic.clear_level1_random_one`: clear the Level-1 board and place `1`
at the randomly drawn cell `(r0, c0)`. -/
def clear_level1_random_one (s : GameState) (r0 c0 : ℤ) : GameState :=
  let s1 := { s with
    board := updateAt (fun _ _ => 0) r0 c0 1
    ring := fun _ _ => 0
    score := 0
    level := 1
    move_history := []
    level1_completed := false
    level1_snapshot := none
    level2_completed := false }
  save_to_history s1 tagInitial

/-! ## Level 2 ring rules and the eligibility calculator -/

/-- `Logic.is_ring_cell`: `r == 0 or r == 6 or c == 0 or c == 6`. -/
def is_ring_cell (r c : ℤ) : Bool :=
  r == 0 || r == 6 || c == 0 || c == 6

/-- `Logic.ring_cell_empty`. -/
def ring_cell_empty (s : GameState) (r c : ℤ) : Bool :=
  s.ring r c == 0

/-- `Logic.get_placed_outer_numbers`: the nonzero values of the border cells
of the 7x7 ring, in row-major order. -/
def get_placed_outer_numbers (s : GameState) : List ℤ :=
  coords7.filterMap fun p =>
    if is_ring_cell p.1 p.2 = true ∧ s.ring p.1 p.2 ≠ 0 then some (s.ring p.1 p.2) else none

/-- `Logic._get_available_positions_for_number`: edge candidates at the ends
of the number's row and column (mapped to ring coordinates by `+1`), corner
candidates only for the four inner-board corners on the two diagonals; a
candidate is kept only while its ring cell is empty. -/
def get_available_positions_for_number (s : GameState) (number : ℤ) : List (ℤ × ℤ) :=
  if 25 < number ∨ number < 2 then []
  else
    match find_position_inner s number with
    | none => []
    | some (r, c) =>
      let outer_r := r + 1
      let outer_c := c + 1
      (if s.ring 0 outer_c = 0 then [((0 : ℤ), outer_c)] else []) ++
      (if s.ring 6 outer_c = 0 then [((6 : ℤ), outer_c)] else []) ++
      (if s.ring outer_r 0 = 0 then [(outer_r, (0 : ℤ))] else []) ++
      (if s.ring outer_r 6 = 0 then [(outer_r, (6 : ℤ))] else []) ++
      (if r = c then
        (if (r, c) = ((0 : ℤ), (0 : ℤ)) ∧ s.ring 0 0 = 0 then [((0 : ℤ), (0 : ℤ))] else []) ++
        (if (r, c) = ((4 : ℤ), (4 : ℤ)) ∧ s.ring 6 6 = 0 then [((6 : ℤ), (6 : ℤ))] else [])
      else []) ++
      (if r + c = 4 then
        (if (r, c) = ((0 : ℤ), (4 : ℤ)) ∧ s.ring 0 6 = 0 then [((0 : ℤ), (6 : ℤ))] else []) ++
        (if (r, c) = ((4 : ℤ), (0 : ℤ)) ∧ s.ring 6 0 = 0 then [((6 : ℤ), (0 : ℤ))] else [])
      else [])

/-- `Logic._calculate_all_available_positions`: rebuild the whole dict for
`num in range(2, 26)`, in key order 2..25. -/
def calculate_all_available_positions (s : GameState) : EligMap :=
  (Int.range 2 26).map fun num => (num, get_available_positions_for_number s num)

/-- `Logic.start_level2`: freeze Level 1 (flag + snapshot), switch to
level 2, reset counters, recompute eligibility, reseed the history. -/
def start_level2 (s : GameState) : GameState :=
  let s1 := { s with
    level1_completed := true
    level1_snapshot := some ⟨s.board, s.score, 1, s.ring⟩
    level := 2
    correct_moves := 0
    invalid_moves := 0
    current_outer_number := 2
    level2_completed := false
    move_history := [] }
  let s2 := { s1 with level2_available_positions := calculate_all_available_positions s1 }
  save_to_history s2 tagLevel2Initial

/-! ## Level 1 move rules -/

/-- `Logic.make_move_level1`: reject out-of-range coordinates, a value other
than `previous_input() + 1`, a missing predecessor, an occupied target, or a
Chebyshev step greater than 1; otherwise place the value, score `+1` for a
strictly diagonal step, bump `correct_moves` and push a `"move"` snapshot. -/
def make_move_level1 (s : GameState) (r c value : ℤ) : Bool × GameState :=
  if ¬ (0 ≤ r ∧ r < 5 ∧ 0 ≤ c ∧ c < 5) then (false, s)
  else
    let prev_value := previous_input s
    if value ≠ prev_value + 1 then (false, s)
    else
      match find_position s prev_value with
      | none => (false, s)
      | some (pr, pc) =>
        if s.board r c ≠ 0 then (false, s)
        else if 1 < |r - pr| ∨ 1 < |c - pc| then (false, s)
        else
          let newScore := if |r - pr| = 1 ∧ |c - pc| = 1 then s.score + 1 else s.score
          (true, save_to_history
            { s with
              board := updateAt s.board r c value
              score := newScore
              correct_moves := s.correct_moves + 1 } tagMove)

/-- `Logic.is_level1_complete`: all 25 board cells nonzero. -/
def is_level1_complete (s : GameState) : Bool :=
  coords5.all fun p => s.board p.1 p.2 != 0

/-- `Logic.place_on_ring_ui_only`: reject out-of-range or non-border or
occupied targets, values already on the ring, and positions outside the
current eligibility entry for the value; otherwise place, bump
`correct_moves`, recompute eligibility and push a `"ring_move"` snapshot. -/
def place_on_ring_ui_only (s : GameState) (r c value : ℤ) : Bool × GameState :=
  if ¬ (0 ≤ r ∧ r < 7 ∧ 0 ≤ c ∧ c < 7) then (false, s)
  else if ¬ is_ring_cell r c = true then (false, s)
  else if ¬ ring_cell_empty s r c = true then (false, s)
  else if value ∈ get_placed_outer_numbers s then (false, s)
  else
    let available_positions := (s.level2_available_positions.lookup value).getD []
    if (r, c) ∉ available_positions then (false, s)
    else
      let s1 := { s with
        ring := updateAt s.ring r c value
        correct_moves := s.correct_moves + 1 }
      let s2 := { s1 with level2_available_positions := calculate_all_available_positions s1 }
      (true, save_to_history s2 tagRingMove)

/-- `Logic.clear_ring`: zero the ring, reset `current_outer_number`,
recompute eligibility and push a `"clear_ring"` snapshot (the history is not
cleared first). -/
def clear_ring (s : GameState) : GameState :=
  let s1 := { s with ring := fun _ _ => 0, current_outer_number := 2 }
  let s2 := { s1 with level2_available_positions := calculate_all_available_positions s1 }
  save_to_history s2 tagClearRing

/-- `Logic.is_level2_complete`: exactly 24 filled border cells. -/
def is_level2_complete (s : GameState) : Bool :=
  (get_placed_outer_numbers s).length == 24

/-! ## Save / load -/

/-- `Logic.get_state`. -/
def get_state (s : GameState) : Snapshot :=
  snapshot_state s

/-- `Logic.set_state`: restore the snapshot; recompute eligibility when the
restored state is in Level 2 with a falsy (empty) eligibility dict; reseed
the history with one baseline snapshot when it is empty. -/
def set_state (s : GameState) (state : Snapshot) : GameState :=
  let s1 := restore_snapshot s state
  let s2 :=
    if s1.level = 2 ∧ s1.level2_available_positions = [] then
      { s1 with level2_available_positions := calculate_all_available_positions s1 }
    else s1
  if s2.move_history.isEmpty then save_to_history s2 tagLoadedInitial else s2

/-! ## Timer config + scoring (User Story 11) -/

/-- `Logic.get_time_limit`: `self.time_limits.get(level, None)`. -/
def get_time_limit (s : GameState) (level : ℤ) : Option ℤ :=
  (s.time_limits.lookup level).getD none

/-- Python 3 `round` on the elapsed-seconds value (modelled in `ℚ`):
round half to even. -/
def pyRound (q : ℚ) : ℤ :=
  let fl := ⌊q⌋
  if q - fl < 1 / 2 then fl
  else if 1 / 2 < q - fl then fl + 1
  else if fl % 2 = 0 then fl else fl + 1

/-- `Logic.apply_time_scoring`: with no limit configured, record a zero
bonus and return 0; otherwise add `limit - round(elapsed)` to the score,
record it, and return it. -/
def apply_time_scoring (s : GameState) (level : ℤ) (elapsed_seconds : ℚ) : ℤ × GameState :=
  match get_time_limit s level with
  | none => (0, { s with time_bonus_last := 0 })
  | some limit =>
    let elapsed_int := pyRound elapsed_seconds
    let delta := limit - elapsed_int
    (delta, { s with score := s.score + delta, time_bonus_last := delta })

/-! ## Completion data / personal best -/

/-- One persisted completion record, restricted to the two keys
`is_personal_best` reads: `"Completion Seconds"` (a float, modelled in `ℚ`)
and `"Game Level"` (read with `.get`, hence optional). -/
structure GameRecord where
  completion_seconds : ℚ
  game_level : Option ℤ

/-- The persisted completion-history document: its `"Players"` mapping from
player name to list of completion records. -/
structure CompletionData where
  players : List (String × List GameRecord)

/-- The elapsed times of a player's prior completion records at `level`:
`[game["Completion Seconds"] for game in player_games if game.get("Game Level") == level]`. -/
def previous_times_at (data : CompletionData) (player_name : String) (level : ℤ) : List ℚ :=
  (((data.players.lookup player_name).getD []).filter
    fun game => game.game_level == some level).map fun game => game.completion_seconds

/-- Python `min` over a nonempty list of rationals (`0` for the empty list,
which the code never reaches). -/
def listMin : List ℚ → ℚ
  | [] => 0
  | [a] => a
  | a :: b :: t => min a (listMin (b :: t))

/-- `Logic.is_personal_best`: `False` with no prior record at the level,
else `current_time_seconds < min(previous_times)`. -/
def is_personal_best (data : CompletionData) (player_name : String)
    (current_time_seconds : ℚ) (level : ℤ) : Bool :=
  let previous_times := previous_times_at data player_name level
  if previous_times.isEmpty then false
  else decide (current_time_seconds < listMin previous_times)

/-! ## Counting board values -/

/-- How many of the 25 board cells hold the value `v`. -/
def countVal (b : ℤ → ℤ → ℤ) (v : ℤ) : ℕ :=
  (dom5.filter fun p => b p.1 p.2 = v).card

/-- The Level-1 board invariant: every value `1..k` sits in exactly one
cell and no other nonzero value appears. -/
def boardExact (b : ℤ → ℤ → ℤ) (k : ℤ) : Prop :=
  ∀ v : ℤ, v ≠ 0 → countVal b v = if 1 ≤ v ∧ v ≤ k then 1 else 0

lemma countVal_update (b : ℤ → ℤ → ℤ) {r c : ℤ} (nv w : ℤ)
    (hmem : ((r, c) : ℤ × ℤ) ∈ dom5) (hold : b r c = 0) (hw : w ≠ 0) :
    countVal (updateAt b r c nv) w = countVal b w + (if w = nv then 1 else 0) := by
  classical
  have hrc : ((r, c) : ℤ × ℤ) ∉ dom5.erase (r, c) := Finset.not_mem_erase _ _
  have hsplit : dom5 = insert (r, c) (dom5.erase (r, c)) := (Finset.insert_erase hmem).symm
  have hfe : (dom5.erase (r, c)).filter (fun p => updateAt b r c nv p.1 p.2 = w)
      = (dom5.erase (r, c)).filter (fun p => b p.1 p.2 = w) := by
    apply Finset.filter_congr
    intro p hp
    have hne : p ≠ (r, c) := Finset.ne_of_mem_erase hp
    have hnand : ¬ (p.1 = r ∧ p.2 = c) := fun hand => hne (Prod.ext hand.1 hand.2)
    simp [updateAt, hnand]
  have hupd : updateAt b r c nv r c = nv := by simp [updateAt]
  unfold countVal
  rw [hsplit, Finset.filter_insert, Finset.filter_insert, hfe]
  by_cases hwv : w = nv
  · subst hwv
    rw [if_pos hupd, if_neg (by rw [hold]; exact fun h => hw h.symm), if_pos rfl,
      Finset.card_insert_of_not_mem (fun hmem' => hrc (Finset.mem_filter.mp hmem').1)]
  · rw [if_neg (by rw [hupd]; exact fun h => hwv h.symm),
      if_neg (by rw [hold]; exact fun h => hw h.symm), if_neg hwv, Nat.add_zero]

lemma countVal_zero {v : ℤ} (hv : v ≠ 0) : countVal (fun _ _ => 0) v = 0 := by
  unfold countVal
  rw [Finset.card_eq_zero, Finset.filter_eq_empty_iff]
  exact fun x _ h => hv h.symm

/-- A freshly seeded board (a single `1` somewhere in range) satisfies the
invariant at `k = 1`. -/
lemma boardExact_seed {r c : ℤ} (hr : 0 ≤ r ∧ r ≤ 4) (hc : 0 ≤ c ∧ c ≤ 4) :
    boardExact (updateAt (fun _ _ => 0) r c 1) 1 := by
  intro v hv
  rw [countVal_update _ 1 v (mem_dom5.mpr ⟨hr.1, hr.2, hc.1, hc.2⟩) rfl hv, countVal_zero hv]
  by_cases h1 : v = 1
  · subst h1; simp
  · rw [if_neg h1, if_neg (by omega)]

lemma mem_countVal_pos {b : ℤ → ℤ → ℤ} {p : ℤ × ℤ} (hp : p ∈ dom5) :
    0 < countVal b (b p.1 p.2) :=
  Finset.card_pos.mpr ⟨p, Finset.mem_filter.mpr ⟨hp, rfl⟩⟩

lemma countVal_pos_mem {b : ℤ → ℤ → ℤ} {v : ℤ} (h : 0 < countVal b v) :
    ∃ p ∈ dom5, b p.1 p.2 = v := by
  obtain ⟨p, hp⟩ := Finset.card_pos.mp h
  exact ⟨p, (Finset.mem_filter.mp hp).1, (Finset.mem_filter.mp hp).2⟩

/-- Under the invariant, `previous_input` (the board maximum) is `k`. -/
lemma previous_input_of_exact {s : GameState} {k : ℤ} (hk : 1 ≤ k)
    (h : boardExact s.board k) : previous_input s = k := by
  unfold previous_input
  apply le_antisymm
  · apply Finset.sup'_le
    intro p hp
    by_cases h0 : s.board p.1 p.2 = 0
    · rw [h0]; omega
    · have hc := mem_countVal_pos (b := s.board) hp
      rw [h _ h0] at hc
      by_contra hgt
      rw [if_neg (by omega)] at hc
      exact absurd hc (by omega)
  · have h1 : 0 < countVal s.board k := by
      rw [h k (by omega), if_pos ⟨hk, le_refl k⟩]; omega
    obtain ⟨p, hp, hv⟩ := countVal_pos_mem h1
    rw [Finset.le_sup'_iff]
    exact ⟨p, hp, le_of_eq hv.symm⟩

/-! ## Case analysis of `make_move_level1` -/

/-- `make_move_level1` either rejects and returns the state untouched, or
all five acceptance conditions hold and the result is the updated state. -/
lemma make_move_cases (s : GameState) (r c v : ℤ) :
    ((make_move_level1 s r c v).1 = false ∧ (make_move_level1 s r c v).2 = s)
    ∨ ∃ pr pc : ℤ,
        (0 ≤ r ∧ r < 5 ∧ 0 ≤ c ∧ c < 5) ∧
        v = previous_input s + 1 ∧
        find_position s (previous_input s) = some (pr, pc) ∧
        s.board r c = 0 ∧
        ¬ (1 < |r - pr| ∨ 1 < |c - pc|) ∧
        (make_move_level1 s r c v).1 = true ∧
        (make_move_level1 s r c v).2.board = updateAt s.board r c v ∧
        (make_move_level1 s r c v).2.score
          = s.score + (if |r - pr| = 1 ∧ |c - pc| = 1 then 1 else 0) := by
  by_cases hb : 0 ≤ r ∧ r < 5 ∧ 0 ≤ c ∧ c < 5
  · by_cases hv : v = previous_input s + 1
    · cases hfind : find_position s (previous_input s) with
      | none =>
        refine Or.inl ⟨?_, ?_⟩ <;> simp [make_move_level1, hb, hv, hfind]
      | some p =>
        obtain ⟨pr, pc⟩ := p
        by_cases hocc : s.board r c = 0
        · by_cases hadj : 1 < |r - pr| ∨ 1 < |c - pc|
          · refine Or.inl ⟨?_, ?_⟩ <;> simp [make_move_level1, hb, hv, hfind, hocc, hadj]
          · refine Or.inr ⟨pr, pc, hb, hv, rfl, hocc, hadj, ?_, ?_, ?_⟩ <;>
              by_cases hdiag : |r - pr| = 1 ∧ |c - pc| = 1 <;>
              simp [make_move_level1, hb, hv, hfind, hocc, hadj, hdiag, save_to_history,
                updateAt, add_comm]
        · refine Or.inl ⟨?_, ?_⟩ <;> simp [make_move_level1, hb, hv, hfind, hocc]
    · refine Or.inl ⟨?_, ?_⟩ <;> simp [make_move_level1, hb, hv]
  · refine Or.inl ⟨?_, ?_⟩ <;> simp [make_move_level1, hb]

/-- An accepted move extends the invariant from `k` to `k + 1`; a rejected
move leaves the whole state untouched. -/
lemma make_move_exact {s : GameState} {k : ℤ} (hk : 1 ≤ k) (hex : boardExact s.board k)
    (r c v : ℤ) :
    ((make_move_level1 s r c v).1 = true → boardExact (make_move_level1 s r c v).2.board (k + 1))
    ∧ ((make_move_level1 s r c v).1 = false → (make_move_level1 s r c v).2 = s) := by
  rcases make_move_cases s r c v with ⟨hf, hs⟩ |
    ⟨pr, pc, hb, hv, hfind, hocc, hadj, ht, hboard, hscore⟩
  · exact ⟨fun h => absurd h (by rw [hf]; simp), fun _ => hs⟩
  · refine ⟨fun _ => ?_, fun h => absurd h (by rw [ht]; simp)⟩
    rw [hboard]
    have hprev : previous_input s = k := previous_input_of_exact hk hex
    intro w hw
    rw [countVal_update _ v w (mem_dom5.mpr (by constructor <;> omega)) hocc hw, hex w hw,
      hv, hprev]
    split_ifs <;> omega

/-- A list of attempted Level-1 placements, applied in order. -/
def runMoves (s : GameState) : List (ℤ × ℤ × ℤ) → GameState
  | [] => s
  | m :: rest => runMoves (make_move_level1 s m.1 m.2.1 m.2.2).2 rest

/-- How many placements of the list `make_move_level1` accepts (each attempt
runs against the state produced by the previous ones). -/
def acceptedCount (s : GameState) : List (ℤ × ℤ × ℤ) → ℕ
  | [] => 0
  | m :: rest =>
    (if (make_move_level1 s m.1 m.2.1 m.2.2).1 then 1 else 0)
      + acceptedCount (make_move_level1 s m.1 m.2.1 m.2.2).2 rest

lemma runMoves_exact : ∀ (ms : List (ℤ × ℤ × ℤ)) (s : GameState) (k : ℤ),
    1 ≤ k → boardExact s.board k →
    boardExact (runMoves s ms).board (k + (acceptedCount s ms : ℤ)) := by
  intro ms
  induction ms with
  | nil => intro s k hk hex; simpa [runMoves, acceptedCount] using hex
  | cons m rest ih =>
    intro s k hk hex
    obtain ⟨r, c, v⟩ := m
    by_cases hres : (make_move_level1 s r c v).1 = true
    · have h1 := (make_move_exact hk hex r c v).1 hres
      have h2 := ih (make_move_level1 s r c v).2 (k + 1) (by omega) h1
      have harith : k + 1 + (acceptedCount (make_move_level1 s r c v).2 rest : ℤ)
          = k + ((acceptedCount s ((r, c, v) :: rest) : ℕ) : ℤ) := by
        simp only [acceptedCount, hres, if_true]
        push_cast
        ring
      rw [harith] at h2
      simpa [runMoves] using h2
    · have hres' : (make_move_level1 s r c v).1 = false := by
        revert hres
        cases (make_move_level1 s r c v).1 <;> simp
      have hs := (make_move_exact hk hex r c v).2 hres'
      have h2 := ih (make_move_level1 s r c v).2 k hk (by rw [hs]; exact hex)
      have harith : k + (acceptedCount (make_move_level1 s r c v).2 rest : ℤ)
          = k + ((acceptedCount s ((r, c, v) :: rest) : ℕ) : ℤ) := by
        simp only [acceptedCount, hres', if_false, Bool.false_eq_true]
        push_cast
        ring
      rw [harith] at h2
      simpa [runMoves] using h2

/-- C1: starting from a fresh new game (one seeded `1`), after `k` accepted
Level-1 placements the nonzero board values are exactly `1..k+1`, each in
exactly one cell. -/
theorem C1_level1_values_contiguous (s : GameState) (r0 c0 : ℤ)
    (hr : 0 ≤ r0 ∧ r0 ≤ 4) (hc : 0 ≤ c0 ∧ c0 ≤ 4)
    (moves : List (ℤ × ℤ × ℤ)) (v : ℤ) (hv : v ≠ 0) :
    countVal (runMoves (reset_new_game_level1 s r0 c0) moves).board v
      = if 1 ≤ v ∧ v ≤ (acceptedCount (reset_new_game_level1 s r0 c0) moves : ℤ) + 1
        then 1 else 0 := by
  have hfresh : boardExact (reset_new_game_level1 s r0 c0).board 1 := by
    show boardExact (updateAt (fun _ _ => 0) r0 c0 1) 1
    exact boardExact_seed hr hc
  have h := runMoves_exact moves _ 1 le_rfl hfresh v hv
  rw [h, add_comm (1 : ℤ)]

/-- Witness for C1: from a game seeded at `(0,0)`, the single accepted
placement of `2` at `(0,1)` leaves the value `2` on exactly one cell. -/
theorem C1_level1_values_contiguous_witness :
    countVal (runMoves (reset_new_game_level1 initState 0 0) [(0, 1, 2)]).board 2
      = if 1 ≤ (2 : ℤ)
          ∧ (2 : ℤ) ≤ (acceptedCount (reset_new_game_level1 initState 0 0) [(0, 1, 2)] : ℤ) + 1
        then 1 else 0 :=
  C1_level1_values_contiguous initState 0 0 (by constructor <;> decide)
    (by constructor <;> decide) [(0, 1, 2)] 2 (by decide)

/-- C5: any rejection condition (coordinates out of range, value other than
max+1, occupied target, Chebyshev step above 1 from the predecessor) makes
`make_move_level1` return `False` with the state unchanged. -/
theorem C5_rejection_leaves_state (s : GameState) (r c v : ℤ)
    (h : ¬ (0 ≤ r ∧ r < 5 ∧ 0 ≤ c ∧ c < 5)
       ∨ v ≠ previous_input s + 1
       ∨ s.board r c ≠ 0
       ∨ ∃ pr pc : ℤ, find_position s (previous_input s) = some (pr, pc)
           ∧ (1 < |r - pr| ∨ 1 < |c - pc|)) :
    make_move_level1 s r c v = (false, s) := by
  rcases make_move_cases s r c v with ⟨hf, hs⟩ |
    ⟨pr, pc, hb, hv, hfind, hocc, hadj, _, _, _⟩
  · exact Prod.ext hf hs
  · exfalso
    rcases h with h | h | h | ⟨pr', pc', hfind', hd⟩
    · exact h hb
    · exact h hv
    · exact h hocc
    · rw [hfind] at hfind'
      obtain ⟨h1, h2⟩ : pr = pr' ∧ pc = pc' := by simpa [Prod.ext_iff] using hfind'
      subst h1; subst h2
      exact hadj hd

/-- Witness for C5: placing `5` on the fresh empty board is rejected (the
next expected value is `1`) and the state comes back unchanged. -/
theorem C5_rejection_leaves_state_witness :
    make_move_level1 initState 0 0 5 = (false, initState) :=
  C5_rejection_leaves_state initState 0 0 5 (Or.inr (Or.inl (by decide)))

/-- C6: an accepted placement adds exactly 1 to the score when the step from
the predecessor is strictly diagonal and 0 otherwise; a non-adjacent
placement is rejected with the whole state (hence the score) unchanged. -/
theorem C6_diagonal_scoring (s : GameState) (r c v pr pc : ℤ)
    (hfind : find_position s (previous_input s) = some (pr, pc)) :
    ((make_move_level1 s r c v).1 = true →
      (make_move_level1 s r c v).2.score
        = s.score + (if |r - pr| = 1 ∧ |c - pc| = 1 then 1 else 0))
    ∧ ((1 < |r - pr| ∨ 1 < |c - pc|) → make_move_level1 s r c v = (false, s)) := by
  constructor
  · intro ht
    rcases make_move_cases s r c v with ⟨hf, _⟩ |
      ⟨pr', pc', _, _, hfind', _, _, _, _, hscore⟩
    · rw [hf] at ht; exact absurd ht (by simp)
    · rw [hfind] at hfind'
      obtain ⟨h1, h2⟩ : pr = pr' ∧ pc = pc' := by simpa [Prod.ext_iff] using hfind'
      subst h1; subst h2
      exact hscore
  · intro hd
    rcases make_move_cases s r c v with ⟨hf, hs⟩ |
      ⟨pr', pc', _, _, hfind', _, hadj, _, _, _⟩
    · exact Prod.ext hf hs
    · exfalso
      rw [hfind] at hfind'
      obtain ⟨h1, h2⟩ : pr = pr' ∧ pc = pc' := by simpa [Prod.ext_iff] using hfind'
      subst h1; subst h2
      exact hadj hd

/-- Witness for C6: on the fresh game seeded at `(0,0)`, placing `2`
diagonally at `(1,1)` scores `+1`. -/
theorem C6_diagonal_scoring_witness :
    (make_move_level1 (reset_new_game_level1 initState 0 0) 1 1 2).2.score
      = (reset_new_game_level1 initState 0 0).score
        + (if |(1 : ℤ) - 0| = 1 ∧ |(1 : ℤ) - 0| = 1 then 1 else 0) :=
  (C6_diagonal_scoring (reset_new_game_level1 initState 0 0) 1 1 2 0 0 (by decide)).1
    (by decide)

/-! ## C3: which operations reseed the history -/

/-- Counterexample to C3 as stated: from a fresh new game (history length 1),
`clear_ring` leaves the history with two entries, not one — it appends a
snapshot without clearing first. -/
theorem C3_counterexample :
    (clear_ring (reset_new_game_level1 initState 0 0)).move_history.length ≠ 1 := by
  decide

/-- C3 (amended): new game, both board-clear variants and level-2 start
reseed the history with exactly one baseline snapshot; ring-clear instead
appends one snapshot to the existing history (length + 1 below the 50-entry
cap). -/
theorem C3_history_reseed (s : GameState) (r0 c0 : ℤ) :
    (reset_new_game_level1 s r0 c0).move_history
        = [(tagInitial, snapshot_state (reset_new_game_level1 s r0 c0))]
    ∧ (clear_level1_keep_one s r0 c0).move_history
        = [(tagInitial, snapshot_state (clear_level1_keep_one s r0 c0))]
    ∧ (clear_level1_random_one s r0 c0).move_history
        = [(tagInitial, snapshot_state (clear_level1_random_one s r0 c0))]
    ∧ (start_level2 s).move_history
        = [(tagLevel2Initial, snapshot_state (start_level2 s))]
    ∧ (s.move_history.length < 50 →
        (clear_ring s).move_history
          = s.move_history ++ [(tagClearRing, snapshot_state (clear_ring s))]) := by
  refine ⟨rfl, rfl, rfl, rfl, ?_⟩
  intro hlen
  simp only [clear_ring, save_to_history]
  rw [if_neg (by simpa using hlen)]
  rfl

/-! ## C4: undo in Level 2 never uncovers a partial Level-1 board -/

/-- How many of the 25 board cells are filled (nonzero). -/
def countFilled (b : ℤ → ℤ → ℤ) : ℕ :=
  (dom5.filter fun p => b p.1 p.2 ≠ 0).card

/-- A Level-2 interaction: a ring placement attempt or an undo. -/
inductive RingOp where
  | place (r c value : ℤ)
  | undo

/-- Apply a list of Level-2 interactions in order. -/
def runRing (s : GameState) : List RingOp → GameState
  | [] => s
  | RingOp.place r c v :: rest => runRing (place_on_ring_ui_only s r c v).2 rest
  | RingOp.undo :: rest => runRing (undo_last_move s).2 rest

/-- The C4 invariant: the live board is fully filled and so is the board of
every snapshot in the undo history. -/
def fullHistInv (s : GameState) : Prop :=
  countFilled s.board = 25 ∧ ∀ e ∈ s.move_history, countFilled e.2.board = 25

lemma fullHistInv_save {s : GameState} (h : fullHistInv s) (t : String) :
    fullHistInv (save_to_history s t) := by
  obtain ⟨hb, hh⟩ := h
  refine ⟨hb, ?_⟩
  intro e he
  have he' : e ∈ s.move_history ∨ e = (t, snapshot_state s) := by
    simp only [save_to_history, List.mem_append, List.mem_singleton] at he
    rcases he with he | he
    · left
      by_cases hlen : 50 ≤ s.move_history.length
      · rw [if_pos hlen] at he; exact List.mem_of_mem_tail he
      · rwa [if_neg hlen] at he
    · right; exact he
  rcases he' with he' | rfl
  · exact hh e he'
  · exact hb

lemma fullHistInv_place {s : GameState} (h : fullHistInv s) (r c v : ℤ) :
    fullHistInv (place_on_ring_ui_only s r c v).2 := by
  simp only [place_on_ring_ui_only]
  split_ifs <;> try exact h
  apply fullHistInv_save
  exact ⟨h.1, h.2⟩

lemma fullHistInv_undo {s : GameState} (h : fullHistInv s) :
    fullHistInv (undo_last_move s).2 := by
  simp only [undo_last_move]
  split
  · exact h
  · split
    · exact h
    · split
      · exact h
      · rename_i hlast
        constructor
        · have hmem : _ ∈ s.move_history.dropLast := List.mem_of_mem_getLast? hlast
          exact h.2 _ ((List.dropLast_sublist _).subset hmem)
        · intro e he
          exact h.2 e ((List.dropLast_sublist _).subset he)

lemma fullHistInv_start {s : GameState} (hb : countFilled s.board = 25) :
    fullHistInv (start_level2 s) := by
  unfold start_level2
  apply fullHistInv_save
  exact ⟨hb, by simp⟩

lemma runRing_inv : ∀ (ops : List RingOp) (s : GameState),
    fullHistInv s → fullHistInv (runRing s ops) := by
  intro ops
  induction ops with
  | nil => intro s h; exact h
  | cons op rest ih =>
    intro s h
    cases op with
    | place r c v => exact ih _ (fullHistInv_place h r c v)
    | undo => exact ih _ (fullHistInv_undo h)

/-- C4: after `start_level2` on a fully filled board, no sequence of ring
placements and undos ever produces a state whose 5x5 board has fewer than 25
filled cells. -/
theorem C4_undo_never_unfills_board (s : GameState) (h : countFilled s.board = 25)
    (ops : List RingOp) :
    countFilled (runRing (start_level2 s) ops).board = 25 :=
  (runRing_inv ops _ (fullHistInv_start h)).1

/-- A concrete fully filled board for the C4 witness. -/
def fullBoardState : GameState :=
  { initState with board := fun _ _ => 1 }

/-- Witness for C4: with every cell filled, starting Level 2 and undoing
once leaves the board fully filled. -/
theorem C4_undo_never_unfills_board_witness :
    countFilled (runRing (start_level2 fullBoardState) [RingOp.undo]).board = 25 :=
  C4_undo_never_unfills_board fullBoardState (by decide) [RingOp.undo]

/-! ## C7: time scoring -/

/-- C7: with no time limit configured for the level the call returns 0 and
leaves the score unchanged; with a limit it returns
`limit - round(elapsed)`, adds that to the score and records it as the last
time-scoring delta. -/
theorem C7_time_scoring (s : GameState) (level : ℤ) (e : ℚ) :
    (get_time_limit s level = none →
      (apply_time_scoring s level e).1 = 0
      ∧ (apply_time_scoring s level e).2.score = s.score)
    ∧ (∀ limit : ℤ, get_time_limit s level = some limit →
      (apply_time_scoring s level e).1 = limit - pyRound e
      ∧ (apply_time_scoring s level e).2.score = s.score + (limit - pyRound e)
      ∧ (apply_time_scoring s level e).2.time_bonus_last = limit - pyRound e) := by
  constructor
  · intro h
    simp [apply_time_scoring, h]
  · intro limit h
    simp [apply_time_scoring, h]

/-! ## C8: personal best -/

lemma lt_listMin_iff : ∀ (l : List ℚ), l ≠ [] → ∀ t : ℚ, (t < listMin l ↔ ∀ x ∈ l, t < x)
  | [], h => absurd rfl h
  | [a], _ => by intro t; simp [listMin]
  | a :: b :: tl, _ => by
    intro t
    have ih := lt_listMin_iff (b :: tl) (by simp) t
    simp only [listMin, lt_min_iff, ih]
    constructor
    · rintro ⟨h1, h2⟩ x hx
      rcases List.mem_cons.mp hx with rfl | hx
      · exact h1
      · exact h2 x hx
    · intro hall
      exact ⟨hall a (by simp), fun x hx => hall x (List.mem_cons_of_mem a hx)⟩

/-- C8: `is_personal_best` is true exactly when the player has at least one
prior record at the level and the new time beats every prior time (i.e. is
below their minimum); with no prior record it is false. -/
theorem C8_personal_best_iff (data : CompletionData) (player_name : String)
    (t : ℚ) (level : ℤ) :
    is_personal_best data player_name t level = true
      ↔ (previous_times_at data player_name level ≠ []
          ∧ ∀ x ∈ previous_times_at data player_name level, t < x) := by
  unfold is_personal_best
  rcases eq_or_ne (previous_times_at data player_name level) [] with hnil | hne
  · rw [hnil]
    simp
  · have hemp : (previous_times_at data player_name level).isEmpty = false := by
      rcases h : previous_times_at data player_name level with _ | ⟨a, l⟩
      · exact absurd h hne
      · rfl
    simp only [hemp, Bool.false_eq_true, if_false, decide_eq_true_eq]
    rw [lt_listMin_iff _ hne t]
    simp [hne]

/-! ## C2: eligibility of the top-left corner -/

/-- Counterexample to C2 as stated: with the number `1` on board cell
`(0,0)` and the ring empty, the eligibility computation for number `1`
returns the empty list (numbers below 2 are rejected outright), not the
four edges plus the corner. -/
theorem C2_counterexample :
    get_available_positions_for_number (reset_new_game_level1 initState 0 0) 1 = []
    ∧ ((0 : ℤ), (1 : ℤ)) ∉
        get_available_positions_for_number (reset_new_game_level1 initState 0 0) 1 := by
  constructor
  · decide
  · decide

/-- C2 (amended): for a ring number `n ∈ [2, 25]` on board cell `(0,0)`
with the ring empty, the candidates are exactly the edges
`(0,1), (6,1), (1,0), (1,6)` plus the corner `(0,0)` (number 1 itself is
outside the eligibility domain and gets the empty candidate list). -/
theorem C2_corner_eligibility (s : GameState) (n : ℤ) (h2 : 2 ≤ n) (h25 : n ≤ 25)
    (hfind : find_position_inner s n = some (0, 0))
    (hring : ∀ a b : ℤ, s.ring a b = 0) :
    get_available_positions_for_number s n
      = [(0, 1), (6, 1), (1, 0), (1, 6), (0, 0)] := by
  unfold get_available_positions_for_number
  rw [if_neg (by omega), hfind]
  norm_num [hring, Prod.ext_iff]

/-- A board holding `2` at `(0,0)` for the C2 witness. -/
def cornerTwoState : GameState :=
  { initState with board := updateAt (fun _ _ => 0) 0 0 2 }

/-- Witness for C2 (amended) at `n = 2`. -/
theorem C2_corner_eligibility_witness :
    get_available_positions_for_number cornerTwoState 2
      = [(0, 1), (6, 1), (1, 0), (1, 6), (0, 0)] :=
  C2_corner_eligibility cornerTwoState 2 (by decide) (by decide) (by decide)
    (fun a b => rfl)

/-! ## C9: the get/set round trip -/

/-- A Level-2 state with an empty eligibility dict (as a raw snapshot can
produce). -/
def stateL2 : GameState := { initState with level := 2 }

/-- Counterexample to C9 as stated: on a Level-2 state whose eligibility
dict is empty, `set_state (get_state ())` recomputes the dict (24 keys), so
the eligibility-map field does not round-trip. -/
theorem C9_counterexample :
    (set_state stateL2 (get_state stateL2)).level2_available_positions
      ≠ stateL2.level2_available_positions := by
  decide

/-- C9 (amended): unless the state is in Level 2 with an empty eligibility
dict, `set_state (get_state ())` leaves every GameState field (all fields of
the snapshot shape) identical. -/
theorem C9_roundtrip (s : GameState)
    (h : s.level ≠ 2 ∨ s.level2_available_positions ≠ []) :
    (set_state s (get_state s)).board = s.board
    ∧ (set_state s (get_state s)).ring = s.ring
    ∧ (set_state s (get_state s)).level = s.level
    ∧ (set_state s (get_state s)).score = s.score
    ∧ (set_state s (get_state s)).correct_moves = s.correct_moves
    ∧ (set_state s (get_state s)).invalid_moves = s.invalid_moves
    ∧ (set_state s (get_state s)).player_name = s.player_name
    ∧ (set_state s (get_state s)).time_limits = s.time_limits
    ∧ (set_state s (get_state s)).time_bonus_last = s.time_bonus_last
    ∧ (set_state s (get_state s)).level1_completed = s.level1_completed
    ∧ (set_state s (get_state s)).level1_snapshot = s.level1_snapshot
    ∧ (set_state s (get_state s)).level2_completed = s.level2_completed
    ∧ (set_state s (get_state s)).level2_available_positions = s.level2_available_positions
    ∧ (set_state s (get_state s)).current_outer_number = s.current_outer_number := by
  have hguard : ¬ ((restore_snapshot s (get_state s)).level = 2
      ∧ (restore_snapshot s (get_state s)).level2_available_positions = []) := by
    rcases h with h | h
    · exact fun hc => h hc.1
    · exact fun hc => h hc.2
  simp only [set_state]
  rw [if_neg hguard]
  split <;>
    exact ⟨rfl, rfl, rfl, rfl, rfl, rfl, rfl, rfl, rfl, rfl, rfl, rfl, rfl, rfl⟩

/-- Witness for C9 (amended) at the fresh Level-1 state. -/
theorem C9_roundtrip_witness :
    (set_state initState (get_state initState)).board = initState.board
    ∧ (set_state initState (get_state initState)).ring = initState.ring
    ∧ (set_state initState (get_state initState)).level = initState.level
    ∧ (set_state initState (get_state initState)).score = initState.score
    ∧ (set_state initState (get_state initState)).correct_moves = initState.correct_moves
    ∧ (set_state initState (get_state initState)).invalid_moves = initState.invalid_moves
    ∧ (set_state initState (get_state initState)).player_name = initState.player_name
    ∧ (set_state initState (get_state initState)).time_limits = initState.time_limits
    ∧ (set_state initState (get_state initState)).time_bonus_last = initState.time_bonus_last
    ∧ (set_state initState (get_state initState)).level1_completed = initState.level1_completed
    ∧ (set_state initState (get_state initState)).level1_snapshot = initState.level1_snapshot
    ∧ (set_state initState (get_state initState)).level2_completed = initState.level2_completed
    ∧ (set_state initState (get_state initState)).level2_available_positions
        = initState.level2_available_positions
    ∧ (set_state initState (get_state initState)).current_outer_number
        = initState.current_outer_number :=
  C9_roundtrip initState (Or.inl (by decide))

/-! ## C10: well-formedness of the eligibility map -/

lemma forall_mem_guard {α : Type} {P : α → Prop} {g : Prop} [Decidable g] {x : α}
    (h : g → P x) : ∀ p ∈ (if g then [x] else []), P p := by
  split
  · rename_i hg
    intro p hp
    rw [List.mem_singleton] at hp
    subst hp
    exact h hg
  · intro p hp
    exact absurd hp (List.not_mem_nil p)

lemma forall_mem_guardList {α : Type} {P : α → Prop} {g : Prop} [Decidable g] {l : List α}
    (h : g → ∀ p ∈ l, P p) : ∀ p ∈ (if g then l else []), P p := by
  split
  · rename_i hg
    exact h hg
  · intro p hp
    exact absurd hp (List.not_mem_nil p)

lemma guard_sublist {α : Type} {g : Prop} [Decidable g] {x : α} :
    List.Sublist (if g then [x] else []) [x] := by
  split
  · exact List.Sublist.refl _
  · exact List.nil_sublist _

lemma guard_block_sublist {α : Type} {g : Prop} [Decidable g] {l m : List α}
    (h : List.Sublist l m) : List.Sublist (if g then l else []) m := by
  split
  · exact h
  · exact List.nil_sublist _

lemma guard_length {α : Type} {g : Prop} [Decidable g] {x : α} :
    (if g then [x] else []).length ≤ 1 := by
  split <;> simp

lemma corner_block_length {α : Type} {g1 g2 : Prop} [Decidable g1] [Decidable g2] {x y : α}
    (hex : ¬ (g1 ∧ g2)) :
    ((if g1 then [x] else []) ++ (if g2 then [y] else [])).length ≤ 1 := by
  by_cases h1 : g1 <;> by_cases h2 : g2 <;> simp [h1, h2]
  exact hex ⟨h1, h2⟩

lemma guardList_length_le {α : Type} {g : Prop} [Decidable g] {l : List α} {k : ℕ}
    (h : l.length ≤ k) : (if g then l else []).length ≤ k := by
  split
  · exact h
  · simp

lemma find_position_inner_bounds {s : GameState} {n r c : ℤ}
    (h : find_position_inner s n = some (r, c)) :
    (0 ≤ r ∧ r ≤ 4 ∧ 0 ≤ c ∧ c ≤ 4) ∧ s.board r c = n := by
  have hm := List.mem_of_find?_eq_some h
  have hp := List.find?_some h
  exact ⟨mem_coords5.mp hm, by simpa using hp⟩

/-- Per-number specification of the eligibility calculator: every candidate
is an in-range empty border cell, there are at most 6 of them, there are no
duplicates. -/
lemma avail_spec (s : GameState) (n : ℤ) :
    (∀ p ∈ get_available_positions_for_number s n,
      (0 ≤ p.1 ∧ p.1 ≤ 6 ∧ 0 ≤ p.2 ∧ p.2 ≤ 6)
      ∧ is_ring_cell p.1 p.2 = true ∧ s.ring p.1 p.2 = 0)
    ∧ (get_available_positions_for_number s n).length ≤ 6
    ∧ (get_available_positions_for_number s n).Nodup := by
  unfold get_available_positions_for_number
  split
  · simp
  · split
    · simp
    · rename_i hrange p r c hfind
      obtain ⟨⟨hr0, hr4, hc0, hc4⟩, _⟩ := find_position_inner_bounds hfind
      refine ⟨?_, ?_, ?_⟩
      · refine List.forall_mem_append.mpr ⟨List.forall_mem_append.mpr
          ⟨List.forall_mem_append.mpr ⟨List.forall_mem_append.mpr
            ⟨List.forall_mem_append.mpr ⟨?_, ?_⟩, ?_⟩, ?_⟩, ?_⟩, ?_⟩
        · exact forall_mem_guard fun hg => ⟨by omega, by simp [is_ring_cell], hg⟩
        · exact forall_mem_guard fun hg => ⟨by omega, by simp [is_ring_cell], hg⟩
        · exact forall_mem_guard fun hg => ⟨by omega, by simp [is_ring_cell], hg⟩
        · exact forall_mem_guard fun hg => ⟨by omega, by simp [is_ring_cell], hg⟩
        · refine forall_mem_guardList fun _ => List.forall_mem_append.mpr ⟨?_, ?_⟩
          · exact forall_mem_guard fun hg => ⟨by omega, by simp [is_ring_cell], hg.2⟩
          · exact forall_mem_guard fun hg => ⟨by omega, by simp [is_ring_cell], hg.2⟩
        · refine forall_mem_guardList fun _ => List.forall_mem_append.mpr ⟨?_, ?_⟩
          · exact forall_mem_guard fun hg => ⟨by omega, by simp [is_ring_cell], hg.2⟩
          · exact forall_mem_guard fun hg => ⟨by omega, by simp [is_ring_cell], hg.2⟩
      · simp only [List.length_append]
        have l1 : (if s.ring 0 (c + 1) = 0 then [((0 : ℤ), c + 1)] else []).length ≤ 1 :=
          guard_length
        have l2 : (if s.ring 6 (c + 1) = 0 then [((6 : ℤ), c + 1)] else []).length ≤ 1 :=
          guard_length
        have l3 : (if s.ring (r + 1) 0 = 0 then [(r + 1, (0 : ℤ))] else []).length ≤ 1 :=
          guard_length
        have l4 : (if s.ring (r + 1) 6 = 0 then [(r + 1, (6 : ℤ))] else []).length ≤ 1 :=
          guard_length
        have l5 : (if r = c then
            (if (r, c) = ((0 : ℤ), (0 : ℤ)) ∧ s.ring 0 0 = 0 then [((0 : ℤ), (0 : ℤ))] else [])
            ++ (if (r, c) = ((4 : ℤ), (4 : ℤ)) ∧ s.ring 6 6 = 0 then [((6 : ℤ), (6 : ℤ))] else [])
          else []).length ≤ 1 := by
          refine guardList_length_le (corner_block_length ?_)
          rintro ⟨⟨hg1, _⟩, ⟨hg2, _⟩⟩
          rw [hg1] at hg2
          exact absurd hg2 (by decide)
        have l6 : (if r + c = 4 then
            (if (r, c) = ((0 : ℤ), (4 : ℤ)) ∧ s.ring 0 6 = 0 then [((0 : ℤ), (6 : ℤ))] else [])
            ++ (if (r, c) = ((4 : ℤ), (0 : ℤ)) ∧ s.ring 6 0 = 0 then [((6 : ℤ), (0 : ℤ))] else [])
          else []).length ≤ 1 := by
          refine guardList_length_le (corner_block_length ?_)
          rintro ⟨⟨hg1, _⟩, ⟨hg2, _⟩⟩
          rw [hg1] at hg2
          exact absurd hg2 (by decide)
        omega
      · refine @List.Sublist.nodup _ _
          [(0, c + 1), (6, c + 1), (r + 1, 0), (r + 1, 6), ((0 : ℤ), (0 : ℤ)),
            ((6 : ℤ), (6 : ℤ)), ((0 : ℤ), (6 : ℤ)), ((6 : ℤ), (0 : ℤ))] ?_ ?_
        · show List.Sublist _
            ((((([((0 : ℤ), c + 1)] ++ [((6 : ℤ), c + 1)]) ++ [(r + 1, (0 : ℤ))])
              ++ [(r + 1, (6 : ℤ))])
              ++ ([((0 : ℤ), (0 : ℤ))] ++ [((6 : ℤ), (6 : ℤ))]))
              ++ ([((0 : ℤ), (6 : ℤ))] ++ [((6 : ℤ), (0 : ℤ))]))
          exact List.Sublist.append (List.Sublist.append (List.Sublist.append
            (List.Sublist.append (List.Sublist.append guard_sublist guard_sublist)
              guard_sublist) guard_sublist)
            (guard_block_sublist (List.Sublist.append guard_sublist guard_sublist)))
            (guard_block_sublist (List.Sublist.append guard_sublist guard_sublist))
        · simp only [List.nodup_cons, List.mem_cons, List.mem_singleton,
            List.not_mem_nil, or_false, Prod.mk.injEq, not_or, List.nodup_nil, and_true,
            true_and, not_false_eq_true]
          omega

/-- C10: right after recomputation the eligibility map has the keys 2..25
exactly, and each entry lists only empty in-range border cells of the 7x7
ring, at most 6 of them, with no duplicates. -/
theorem C10_eligibility_wellformed (s : GameState) :
    (calculate_all_available_positions s).map Prod.fst
        = [2, 3, 4, 5, 6, 7, 8, 9, 10, 11, 12, 13, 14, 15, 16, 17, 18, 19, 20,
           21, 22, 23, 24, 25]
    ∧ ∀ e ∈ calculate_all_available_positions s,
        (∀ p ∈ e.2,
          (0 ≤ p.1 ∧ p.1 ≤ 6 ∧ 0 ≤ p.2 ∧ p.2 ≤ 6)
          ∧ is_ring_cell p.1 p.2 = true ∧ s.ring p.1 p.2 = 0)
        ∧ e.2.length ≤ 6 ∧ e.2.Nodup := by
  constructor
  · rfl
  · intro e he
    simp only [calculate_all_available_positions, List.mem_map] at he
    obtain ⟨num, _, rfl⟩ := he
    exact avail_spec s num

end Game
